import Mathlib

/-!
Verification development for the paste-to-blocks pipeline of this repository
(the paste handler, its inline filter chain, the HTML-to-blocks normalizer)
and for the hierarchical term-tree filter.

The embedding follows the source files: pure JavaScript string logic is
translated to functions over `String` / `List Char`, and the mutation-based
DOM tree filters are reimplemented as pure functions over an explicit tree
value (as the design notes of the specification prescribe).  External
collaborators (grammar parser, markdown converter, shortcode splitter,
schema-based sanitizers, the raw-transform registry, the browser HTML
parser) are not part of the sources; they enter as an explicit environment
of abstract functions, and the few facts needed about them are either
hypotheses of the theorems or definitions modelled from the specification
(marked as such).
-/

/-! ### Basic string helpers (models of the JavaScript string primitives) -/

/-- Model of `needle`-prefix testing (`s.indexOf(pat) === 0`). -/
def listStartsWith : List Char → List Char → Bool
  | _, [] => true
  | [], _ :: _ => false
  | a :: as, b :: bs => a = b && listStartsWith as bs

/-- Model of `s.indexOf(pat) !== -1` (substring containment). -/
def listContains : List Char → List Char → Bool
  | [], pat => listStartsWith [] pat
  | a :: as, pat => listStartsWith (a :: as) pat || listContains as pat

def strStartsWith (s pat : String) : Bool := listStartsWith s.data pat.data

def strContains (s pat : String) : Bool := listContains s.data pat.data

/-- Model of `String.prototype.trim`. -/
def strTrim (s : String) : String :=
  let l := s.data.dropWhile Char.isWhitespace
  String.mk ((l.reverse.dropWhile Char.isWhitespace).reverse)

/-- Case-insensitive character comparison (for the `i` regex flag). -/
def charCI (a b : Char) : Bool := a.toLower = b.toLower

def listStartsWithCI : List Char → List Char → Bool
  | _, [] => true
  | [], _ :: _ => false
  | a :: as, b :: bs => charCI a b && listStartsWithCI as bs

/-- Drop a literal prefix case-insensitively, returning the remainder. -/
def stripPrefixCI : List Char → List Char → Option (List Char)
  | l, [] => some l
  | [], _ :: _ => none
  | a :: as, b :: bs => if charCI a b then stripPrefixCI as bs else none

/-! ### The boilerplate-stripping regex replacements of `pasteHandler`

`HTML.replace(/<meta[^>]+>/g, '')` and the two Windows clipboard marker
replacements, lines 253-263 of the paste handler source. -/

/-- Cut a character list after the first `'>'`; `none` if there is none.
Models consuming `[^>]*>` from the current position. -/
def cutToGt : List Char → Option (List Char)
  | [] => none
  | c :: rest => if c = '>' then some rest else cutToGt rest

/-- Model of the global replacement `/<meta[^>]+>/g` with the empty string:
at each position, `<meta` followed by at least one non-`'>'` character and a
closing `'>'` is removed; scanning resumes after the removed match.  The
`fuel` argument only makes the recursion structural (every step strictly
shortens the list, so an initial fuel of the list length is always enough). -/
def stripMetaAux : Nat → List Char → List Char
  | _, [] => []
  | 0, l => l
  | fuel + 1, '<' :: 'm' :: 'e' :: 't' :: 'a' :: c :: rest =>
    if c = '>' then
      '<' :: stripMetaAux fuel ('m' :: 'e' :: 't' :: 'a' :: c :: rest)
    else
      match cutToGt (c :: rest) with
      | some tail => stripMetaAux fuel tail
      | none => '<' :: stripMetaAux fuel ('m' :: 'e' :: 't' :: 'a' :: c :: rest)
  | fuel + 1, c :: rest => c :: stripMetaAux fuel rest

def stripMeta (s : String) : String := String.mk (stripMetaAux s.data.length s.data)

/-- Consume `<name[^>]*>` case-insensitively from the head of the list. -/
def matchTagOpen (l : List Char) (name : List Char) : Option (List Char) :=
  match stripPrefixCI l ('<' :: name) with
  | none => none
  | some r =>
    let r2 := r.dropWhile (fun c => c ≠ '>')
    match r2 with
    | '>' :: t => some t
    | _ => none

def skipWS (l : List Char) : List Char := l.dropWhile Char.isWhitespace

/-- Model of
`HTML.replace(/^\s*<html[^>]*>\s*<body[^>]*>(?:\s*<!--\s*StartFragment\s*-->)?/i, '')`. -/
def stripWindowsHead (s : String) : String :=
  let l := s.data
  match matchTagOpen (skipWS l) ('h' :: 't' :: 'm' :: 'l' :: []) with
  | none => s
  | some afterHtml =>
    match matchTagOpen (skipWS afterHtml) ('b' :: 'o' :: 'd' :: 'y' :: []) with
    | none => s
    | some afterBody =>
      let tryFrag :=
        match stripPrefixCI (skipWS afterBody) ('<' :: '!' :: '-' :: '-' :: []) with
        | none => none
        | some r1 =>
          match stripPrefixCI (skipWS r1) "startfragment".data with
          | none => none
          | some r2 =>
            match stripPrefixCI (skipWS r2) ('-' :: '-' :: '>' :: []) with
            | none => none
            | some r3 => some r3
      match tryFrag with
      | some r => String.mk r
      | none => String.mk afterBody

/-- Model of
`HTML.replace(/(?:<!--\s*EndFragment\s*-->\s*)?<\/body>\s*<\/html>\s*$/i, '')`,
implemented by matching the pattern backwards from the end of the string. -/
def stripWindowsTail (s : String) : String :=
  let r := s.data.reverse
  match stripPrefixCI (skipWS r) "</html>".data.reverse with
  | none => s
  | some r1 =>
    match stripPrefixCI (skipWS r1) "</body>".data.reverse with
    | none => s
    | some r2 =>
      let tryFrag :=
        match stripPrefixCI (skipWS r2) "-->".data.reverse with
        | none => none
        | some t1 =>
          match stripPrefixCI (skipWS t1) "endfragment".data.reverse with
          | none => none
          | some t2 =>
            match stripPrefixCI (skipWS t2) "<!--".data.reverse with
            | none => none
            | some t3 => some t3
      match tryFrag with
      | some t => String.mk t.reverse
      | none => String.mk r2.reverse

example : stripMeta "a<meta charset=x>b" = "ab" := by decide
example : stripMeta "<meta>" = "<meta>" := by decide
example : stripWindowsHead "<html><body><!--StartFragment-->hi" = "hi" := by decide
example : stripWindowsTail "hi<!--EndFragment--></body></html>" = "hi" := by decide
example : stripWindowsTail "hi<!-- EndFragment --> </body> </html> " = "hi" := by decide
example :
    stripWindowsTail "<!-- wp:a --><!-- EndFragment --></body></html>" = "<!-- wp:a -->" := by
  decide
example : strContains "x<!-- wp:para" "<!-- wp:" = true := by decide
example : strTrim "  a b " = "a b" := by decide

/-! ### The markup tree

The mutation-based DOM filters of the source are reimplemented as pure
functions over an explicit tree value, as the design notes of the
specification prescribe.  An element keeps its inline style (the
`element.style.cssText` string) separately from the remaining attributes,
mirroring the `attr.name !== 'style'` split used by the source. -/

inductive HNode where
  | element (tag : String) (style : String) (attrs : List (String × String)) (children : List HNode)
  | text (s : String)
  | comment (s : String)

def HNode.isElement : HNode → Bool
  | .element _ _ _ _ => true
  | _ => false

def serializeAttrs : List (String × String) → String
  | [] => ""
  | a :: rest => " " ++ a.1 ++ "=" ++ "\"" ++ a.2 ++ "\"" ++ serializeAttrs rest

def serializeStyleAttr (style : String) : String :=
  if style = "" then "" else " style=" ++ "\"" ++ style ++ "\""

mutual
/-- Model of DOM serialization (`outerHTML`) for one node.  Attribute values
and text are emitted verbatim (no entity escaping) and every element gets a
closing tag; the inputs of all claims stay inside this fragment of HTML. -/
def serializeNode : HNode → String
  | .text s => s
  | .comment s => "<!--" ++ s ++ "-->"
  | .element tag style attrs children =>
    "<" ++ tag ++ serializeAttrs attrs ++ serializeStyleAttr style ++ ">"
      ++ serializeNodes children ++ "</" ++ tag ++ ">"

def serializeNodes : List HNode → String
  | [] => ""
  | n :: rest => serializeNode n ++ serializeNodes rest
end

mutual
/-- Total number of nodes in a tree (used to compute recursion fuel). -/
def sizeN : HNode → Nat
  | .element _ _ _ cs => 1 + sizeL cs
  | _ => 1

def sizeL : List HNode → Nat
  | [] => 0
  | n :: rest => sizeN n + sizeL rest
end

example : serializeNode (HNode.element "foo" "" [] [HNode.text "bar"]) = "<foo>bar</foo>" := by decide

/-! ### `applyToAllSuccessors` with the unwrap callback
(`unwrapSpansWithNoStylesAndAtrrs`, paste handler source lines 128-143)

The source iterates `for (const child of head.children)` over the *live*
element collection while the callback may `unwrap` the current child
(replace it by its children).  Unwrapping removes one entry of the live
collection at the current index, so the `for..of` index skips whatever
element then occupies that slot: the first element among the unwrapped
child's own children, or, if it has none, the next sibling element.  The
pure model below walks the child list with a `skip` flag that consumes
exactly the next element node without visiting it, reproducing that
behaviour.  The `fuel` argument only makes the recursion structural; every
recursive call strictly decreases the total node count of the worklist, so
an initial fuel of `sizeL` is always enough. -/
def unwrapGo : Nat → Bool → List HNode → List HNode → List HNode
  | _, _, before, [] => before
  | 0, _, before, after => before ++ after
  | fuel + 1, skip, before, n :: rest =>
    match n with
    | .element t st a cs =>
      if skip then
        unwrapGo fuel false (before ++ [HNode.element t st a cs]) rest
      else if st = "" ∧ a = [] then
        unwrapGo fuel true before (cs ++ rest)
      else
        unwrapGo fuel false
          (before ++ [HNode.element t st a (unwrapGo fuel false [] cs)]) rest
    | other => unwrapGo fuel skip (before ++ [other]) rest

/-- Model of `unwrapSpansWithNoStylesAndAtrrs` (source lines 128-143): every
*visited* element whose `style.cssText` is empty and whose attributes other
than `style` are empty is unwrapped. -/
def unwrapSpansWithNoStylesAndAtrrs (nodes : List HNode) : List HNode :=
  unwrapGo (sizeL nodes) false [] nodes

example :
    unwrapSpansWithNoStylesAndAtrrs [HNode.element "p" "" [] [HNode.text "hello world"]]
      = [HNode.text "hello world"] := rfl

example :
    unwrapSpansWithNoStylesAndAtrrs
        [HNode.element "em" "" [] [HNode.text "a"],
         HNode.element "strong" "" [] [HNode.text "b"]]
      = [HNode.text "a", HNode.element "strong" "" [] [HNode.text "b"]] := rfl

example :
    unwrapSpansWithNoStylesAndAtrrs
        [HNode.element "div" "" [("class", "x")] [HNode.element "em" "" [] [HNode.text "a"]],
         HNode.element "p" "" [] [HNode.text "b"]]
      = [HNode.element "div" "" [("class", "x")] [HNode.text "a"], HNode.text "b"] := rfl

/-! ### The default-style removal machinery (paste handler source lines 45-126) -/

/-- Generic model of the `/\(.*?\)/g` replacements: apply `f` to the inside
of every parenthesis group (first `'('` to the nearest `')'`); an unclosed
`'('` leaves the remainder untouched, as the regex then has no match.  The
`fuel` argument only makes the recursion structural. -/
def parenGroupsAux (f : List Char → List Char) : Nat → List Char → List Char
  | _, [] => []
  | 0, l => l
  | fuel + 1, '(' :: rest =>
    let inside := rest.takeWhile (fun c => c ≠ ')')
    let after := rest.dropWhile (fun c => c ≠ ')')
    match after with
    | ')' :: tail => '(' :: f inside ++ ')' :: parenGroupsAux f fuel tail
    | _ => '(' :: rest
  | fuel + 1, c :: rest => c :: parenGroupsAux f fuel rest

/-- Spaces inside parenthesis groups become underscores
(`.replace(/\(.*?\)/g, (match) => match.replace(/ /g, '_'))`). -/
def parenSpacesToUnderscores (l : List Char) : List Char :=
  parenGroupsAux (fun ins => ins.map (fun c => if c = ' ' then '_' else c)) l.length l

/-- Underscores inside parenthesis groups are removed
(`.replace(/\(.*?\)/g, (match) => match.replace(/_/g, ''))`). -/
def parenRemoveUnderscores (l : List Char) : List Char :=
  parenGroupsAux (fun ins => ins.filter (fun c => c ≠ '_')) l.length l

/-- Model of `String.prototype.split` with a non-empty literal separator. -/
def splitGo (sep : List Char) : Nat → List Char → List Char → List (List Char)
  | _, acc, [] => [acc.reverse]
  | 0, acc, l => [acc.reverse ++ l]
  | fuel + 1, acc, c :: rest =>
    if listStartsWith (c :: rest) sep then
      acc.reverse :: splitGo sep fuel [] ((c :: rest).drop sep.length)
    else
      splitGo sep fuel (c :: acc) rest

def strSplit (s sep : String) : List String :=
  (splitGo sep.data s.data.length [] s.data).map String.mk

example : strSplit "a:b:c" ":" = ["a", "b", "c"] := by decide
example : strSplit "x; y;" "; " = ["x", "y;"] := by decide

/-- One entry of `getStylesEntries` (source lines 75-80).  On a segment
without a colon, destructuring gives `values` the default empty *array*:
for the key `color` the source returns `['color', [values]]` (the nested
empty array later renders as the empty string, modelled by `[""]`), and for
every other key `values.split(', ')` throws a TypeError — modelled as
`none`.  Such segments are reachable: the split on `';'` also cuts inside
quoted CSS strings, e.g. a pasted `style` of `font-family: "a;b"`. -/
def styleEntryOf (styles : String) : Option (String × List String) :=
  match strSplit (strTrim styles) ":" with
  | [] => none
  | [key] => if key = "color" then some (key, [""]) else none
  | key :: values :: _ =>
    if key = "color" then some (key, [values])
    else some (key, (strSplit values ", ").map strTrim)

def styleEntriesOf : List String → Option (List (String × List String))
  | [] => some []
  | s :: rest =>
    match styleEntryOf s, styleEntriesOf rest with
    | some e, some es => some (e :: es)
    | _, _ => none

/-- Model of `getStylesEntries` (source lines 69-81); `none` models the
TypeError the source throws on a colon-less style segment. -/
def getStylesEntries (stylesString : String) : Option (List (String × List String)) :=
  styleEntriesOf
    ((strSplit (String.mk (parenSpacesToUnderscores stylesString.data)) ";").filter
      (fun x => x ≠ ""))

/-- Model of lodash `difference`. -/
def lodashDifference (a b : List String) : List String :=
  a.filter (fun x => ¬ b.contains x)

/-- Object-spread accumulation: assigning an existing key keeps its
position, a new key is appended. -/
def upsertStyle (acc : List (String × List String)) (key : String) (v : List String) :
    List (String × List String) :=
  if acc.any (fun e => e.1 = key) then
    acc.map (fun e => if e.1 = key then (key, v) else e)
  else acc ++ [(key, v)]

/-- Model of `getNonDefaultStyles` (source lines 51-67). -/
def getNonDefaultStyles (defaultStylesEntries stylesEntries : List (String × List String)) :
    List (String × List String) :=
  stylesEntries.foldl (fun acc kv =>
    let defaultValues := ((defaultStylesEntries.find? (fun e => e.1 = kv.1)).map Prod.snd).getD []
    let diff := lodashDifference kv.2 defaultValues
    if diff ≠ [] then upsertStyle acc kv.1 diff else acc) []

/-- The `defaultStyles` baseline string (source lines 83-84). -/
def defaultStyles : String :=
  "color: rgb(40, 48, 61); font-family: -apple-system, system-ui, 'Segoe UI', Roboto, Oxygen-Sans, Ubuntu, Cantarell, 'Helvetica Neue', sans-serif; font-size: 20px; font-style: normal; font-variant-ligatures: normal; font-variant-caps: normal; font-weight: 400; letter-spacing: normal; orphans: 2; text-align: start; text-indent: 0px; text-transform: none; white-space: pre-wrap; widows: 2; word-spacing: 0px; -webkit-text-stroke-width: 0px; background-color: rgb(209, 228, 221); text-decoration-style: initial; text-decoration-color: initial; display: inline !important; float: none;"

def stylesToSkip : List String :=
  ["box-sizing", "background-color", "font-family", "border-radius"]

/-- Model of `fromObjToString` (source lines 86-89): `[key, values].join(':')`
renders the value array with commas. -/
def fromObjToString (obj : List (String × List String)) : String :=
  String.intercalate "; " (obj.map (fun pair => pair.1 ++ ":" ++ String.intercalate "," pair.2))

/-- Model of `removeDefaultStyles` (source lines 98-116) acting on one
element's `style.cssText` string: keep only the style entries that differ
from the default baseline, drop the unimportant properties, reassemble;
`none` propagates the TypeError of `getStylesEntries`. -/
def removeDefaultStylesCss (elementStyles : String) : Option String :=
  match getStylesEntries defaultStyles, getStylesEntries elementStyles with
  | some defaultStylesEntries, some stylesEntries =>
    some (String.mk (parenRemoveUnderscores
      (fromObjToString
        ((getNonDefaultStyles defaultStylesEntries stylesEntries).filter
          (fun e => ¬ stylesToSkip.contains e.1))).data))
  | _, _ => none

mutual
/-- Model of `applyToAllSuccessors` with `removeDefaultStyles` (source
lines 118-126): the callback rewrites every descendant element's style and
never restructures the tree, so the live iteration is a plain traversal;
a thrown TypeError from any element propagates as `none`. -/
def removeDefaultStylesNode : HNode → Option HNode
  | .element t st a cs =>
    match removeDefaultStylesCss st, removeDefaultStylesList cs with
    | some st', some cs' => some (.element t st' a cs')
    | _, _ => none
  | n => some n

def removeDefaultStylesList : List HNode → Option (List HNode)
  | [] => some []
  | n :: rest =>
    match removeDefaultStylesNode n, removeDefaultStylesList rest with
    | some n', some rest' => some (n' :: rest')
    | _, _ => none
end

def removeDefaultStylesFromAllElements (nodes : List HNode) : Option (List HNode) :=
  removeDefaultStylesList nodes

set_option maxRecDepth 10000

example : removeDefaultStylesCss "" = some "" := rfl
example : removeDefaultStylesCss "color: rgb(40, 48, 61); float: none;" = some "" := by decide
example : removeDefaultStylesCss "color: rgb(1, 2, 3)" = some "color: rgb(1,2,3)" := by decide
example : removeDefaultStylesCss "font-family: \"a;b\"" = none := by decide

/-! ### The inline filter chain (`filterInlineHTML`, source lines 153-173)

The three `deepFilterHTML` passes and the whitespace passes use filter
modules that are not under the sources of this repository; they are
modelled from the specification (section 4.2) below, each one marked.  The
in-source parts (the default-style removal above, the bare-element unwrap,
and the composition order) are embedded faithfully; notably the
`removeInvalidHTML( HTML, getPhrasingContentSchema( 'paste' ) )` step is
commented out in the source and therefore absent here as well. -/

/-- Modelled from the spec: "remove foreign editor identifier markers"
(section 4.2 step b, the Google Docs UID remover module, which is not under
src/).  Modelled as dropping the internal-GUID identifier attribute;
content without such markers passes through unchanged. -/
def googleDocsUIDAttrs (a : List (String × String)) : List (String × String) :=
  a.filter (fun p => ¬ (p.1 = "id" ∧ strStartsWith p.2 "docs-internal-guid-" = true))

mutual
def googleDocsUIDRemoverNode : HNode → HNode
  | .element t st a cs => .element t st (googleDocsUIDAttrs a) (googleDocsUIDRemoverModel cs)
  | n => n

def googleDocsUIDRemoverModel : List HNode → List HNode
  | [] => []
  | n :: rest => googleDocsUIDRemoverNode n :: googleDocsUIDRemoverModel rest
end

/-- Modelled from the spec: "reduce nested phrasing markup to its canonical
minimal form" (section 4.2 step c, the phrasing-content reducer module,
which is not under src/).  Modelled as canonicalising the legacy phrasing
tag aliases; already-canonical nodes pass through unchanged. -/
def canonicalPhrasingTag (t : String) : String :=
  if t = "b" then "strong" else if t = "i" then "em" else t

mutual
def phrasingContentReducerNode : HNode → HNode
  | .element t st a cs => .element (canonicalPhrasingTag t) st a (phrasingContentReducerModel cs)
  | n => n

def phrasingContentReducerModel : List HNode → List HNode
  | [] => []
  | n :: rest => phrasingContentReducerNode n :: phrasingContentReducerModel rest
end

mutual
/-- Modelled from the spec: "remove comment nodes" (section 4.2 step d, the
comment remover module, which is not under src/). -/
def commentRemoverNode : HNode → HNode
  | .element t st a cs => .element t st a (commentRemoverModel cs)
  | n => n

def commentRemoverModel : List HNode → List HNode
  | [] => []
  | .comment _ :: rest => commentRemoverModel rest
  | n :: rest => commentRemoverNode n :: commentRemoverModel rest
end

/-- Collapse maximal whitespace runs in a character list to single spaces. -/
def collapseWSAux : Bool → List Char → List Char
  | _, [] => []
  | prevWS, c :: rest =>
    if c.isWhitespace then
      (if prevWS then [] else [' ']) ++ collapseWSAux true rest
    else c :: collapseWSAux false rest

mutual
/-- Modelled from the spec: "conditionally collapse redundant
whitespace/line-break markup when whitespace preservation is not requested"
(section 4.2 step e, the html-formatting remover module, which is not under
src/).  Modelled as collapsing whitespace runs inside text nodes; text
without redundant whitespace passes through unchanged. -/
def htmlFormattingRemoverNode : HNode → HNode
  | .text s => .text (String.mk (collapseWSAux false s.data))
  | .element t st a cs => .element t st a (htmlFormattingRemoverModel cs)
  | n => n

def htmlFormattingRemoverModel : List HNode → List HNode
  | [] => []
  | n :: rest => htmlFormattingRemoverNode n :: htmlFormattingRemoverModel rest
end

def isBrNode : HNode → Bool
  | .element t _ _ _ => t = "br"
  | _ => false

def dropTrailingBr (ns : List HNode) : List HNode :=
  (ns.reverse.dropWhile isBrNode).reverse

mutual
/-- Modelled from the spec: the other half of section 4.2 step e (the
line-break remover module, which is not under src/).  Modelled as dropping
trailing line-break elements in every child list; content without trailing
line breaks passes through unchanged. -/
def brRemoverNode : HNode → HNode
  | .element t st a cs => .element t st a (dropTrailingBr (brRemoverList cs))
  | n => n

def brRemoverList : List HNode → List HNode
  | [] => []
  | n :: rest => brRemoverNode n :: brRemoverList rest
end

def brRemoverModel (ns : List HNode) : List HNode := dropTrailingBr (brRemoverList ns)

/-- Embedding of `filterInlineHTML` (source lines 153-173) at the tree
level, stage for stage in source order: default-style removal, the
deep-filter pass (Google Docs markers, phrasing reduction, comment
removal), the conditional whitespace passes, and the bare-element unwrap.
The phrasing-schema `removeInvalidHTML` call is commented out in the
source and is accordingly absent.  `none` propagates the TypeError the
default-style removal can throw; every later stage is total. -/
def filterInlineHTMLNodes (nodes : List HNode) (preserveWhiteSpace : Bool) :
    Option (List HNode) :=
  match removeDefaultStylesFromAllElements nodes with
  | none => none
  | some n1 =>
    some (unwrapSpansWithNoStylesAndAtrrs
      (if preserveWhiteSpace then
        commentRemoverModel (phrasingContentReducerModel (googleDocsUIDRemoverModel n1))
      else
        brRemoverModel (htmlFormattingRemoverModel
          (commentRemoverModel (phrasingContentReducerModel (googleDocsUIDRemoverModel n1))))))

example :
    (filterInlineHTMLNodes [HNode.element "p" "" [] [HNode.text "hello world"]] false).map
        serializeNodes
      = some "hello world" := by decide

/-! ### Blocks, transforms, and the environment of external collaborators -/

/-- A structured-content node: type name, attribute mapping, nested blocks
(the shape produced by the external `createBlock`). -/
structure Block where
  name : String
  attributes : List (String × String)
  innerBlocks : List Block

/-- One entry of the list produced by `getRawTransformations` (source lines
175-188): the registry data is external, so the already-adapted matcher is
carried as a predicate; `transform` is the optional direct node-to-block
function, otherwise `blockName` plus generic attribute extraction is used. -/
structure RawTransform where
  isMatch : HNode → Bool
  blockName : String
  transform : Option (HNode → Block)

/-- The paste mode (`'AUTO' | 'INLINE' | 'BLOCKS'`). -/
inductive Mode where
  | AUTO
  | INLINE
  | BLOCKS
deriving DecidableEq

/-- One piece of the shortcode splitter's output: a raw markup string or an
already-resolved block. -/
inductive Piece where
  | html (s : String)
  | block (b : Block)

/-- The result of `pasteHandler`: a list of blocks or an inline string. -/
inductive HandlerResult where
  | blocks (bs : List Block)
  | str (s : String)

def HandlerResult.isStr : HandlerResult → Bool
  | .str _ => true
  | _ => false

def HandlerResult.isBlocks : HandlerResult → Bool
  | .blocks _ => true
  | _ => false

/-- The external collaborators of the paste pipeline.  None of these are
defined under src/ (grammar parser, Unicode normalization, markdown
converter, the browser's `innerHTML` parser, shortcode splitter, inline
content heuristic, transform registry, schema-based sanitizers, block
serializer, block support registry); the pipeline is embedded relative to
an arbitrary such environment. -/
structure Env where
  parseWithGrammar : String → List Block
  normalize : String → String
  isPlain : String → Bool
  markdownConverter : String → String
  parse : String → List HNode
  shortcodeConverter : String → List Piece
  isInlineContent : String → Option String → Bool
  rawTransforms : List RawTransform
  deepFilterBlock : String → String
  removeInvalidHTMLSchema : String → String
  normaliseBlocks : String → String
  deepFilterCleanup : String → String
  getBlockAttributes : String → String → List (String × String)
  hasBlockSupport : String → String → Bool → Bool
  getBlockContent : Block → String
  removeInvalidHTMLPhrasing : String → String

/-- The string form of the inline filter chain: the source round-trips each
stage through `innerHTML` strings; here the input is parsed once (the
browser parser is the environment's `parse`), the tree pipeline runs, and
the result is serialized once; `none` is the propagated TypeError. -/
def filterInlineHTMLStr (env : Env) (HTML : String) (preserveWhiteSpace : Bool) : Option String :=
  (filterInlineHTMLNodes (env.parse HTML) preserveWhiteSpace).map serializeNodes

/-- Embedding of `htmlToBlocks` (source lines 201-229).  `env.parse` models
`doc.body.innerHTML = html` and the `.filter isElement` step models
`Array.from(doc.body.children)` (the element-only collection).
`List.find?` models the external `findTransform`, which the specification
describes as first-match-wins in registration order.  An unmatched node
falls back to the opaque `core/html` block built from the node's own
serialized markup. -/
def htmlToBlocks (env : Env) (html : String) (rawTransforms : List RawTransform) : List Block :=
  ((env.parse html).filter HNode.isElement).map (fun node =>
    match rawTransforms.find? (fun t => t.isMatch node) with
    | none =>
      Block.mk "core/html" (env.getBlockAttributes "core/html" (serializeNode node)) []
    | some t =>
      match t.transform with
      | some f => f node
      | none => Block.mk t.blockName (env.getBlockAttributes t.blockName (serializeNode node)) [])

/-- Per-piece block conversion (source lines 337-376): a shortcode-resolved
block passes through; a string piece runs the block filter chain (the
eleven-filter `deepFilterHTML` pass, the schema `removeInvalidHTML`, the
top-level regrouping `normaliseBlocks`, and the cleanup pass) — all four
stages live in modules outside src/ and are environment functions — and is
then converted by `htmlToBlocks`.  The lodash `compact` of the source drops
only falsy entries and block objects are never falsy, so it adds nothing
here. -/
def convertPiece (env : Env) (piece : Piece) : List Block :=
  match piece with
  | .block b => [b]
  | .html s =>
    htmlToBlocks env
      (env.deepFilterCleanup (env.normaliseBlocks (env.removeInvalidHTMLSchema (env.deepFilterBlock s))))
      env.rawTransforms

/-- The flattened per-piece outputs (`compact(flatMap(pieces, ...))`). -/
def computeBlocks (env : Env) (HTML : String) : List Block :=
  ((env.shortcodeConverter HTML).map (convertPiece env)).flatten

/-! ### The paste handler (source lines 246-401) -/

/-- The input record of `pasteHandler`; `HTML` and `plainText` are optional
and default to the empty string in the handler, `mode` defaults to `AUTO`
at every call site that omits it, and the optional `preserveWhiteSpace`
flag is only ever used for truthiness, so it is carried as a plain `Bool`
(`false` for the omitted case). -/
structure PasteOptions where
  HTML : Option String
  plainText : Option String
  mode : Mode
  tagName : Option String
  preserveWhiteSpace : Bool

/-- The markup field after the boilerplate stripping of source lines
253-263: meta tags and the Windows clipboard fragment markers are removed. -/
def strippedHTML (opts : PasteOptions) : String :=
  stripWindowsTail (stripWindowsHead (stripMeta (opts.HTML.getD "")))

/-- The content checked for the serialized-block delimiter (source line
268): the stripped markup, or the plain text when the markup is empty. -/
def delimiterContent (opts : PasteOptions) : String :=
  if strippedHTML opts ≠ "" then strippedHTML opts else opts.plainText.getD ""

/-- The serialized-block delimiter token. -/
def wpDelim : String := "<!-- wp:"

/-- The markdown-conversion and AUTO-to-INLINE resolution step (source
lines 286-305): when plain text exists and the markup is empty or plain,
the plain text is converted by the external markdown converter and becomes
the working markup; additionally, AUTO mode flips to INLINE when the plain
text has no line break, does not start with a paragraph tag, and the
converted markup does. -/
def resolveMarkdown (env : Env) (plainText HTML : String) (mode : Mode) : String × Mode :=
  if plainText ≠ "" ∧ (HTML = "" ∨ env.isPlain HTML = true) then
    (env.markdownConverter plainText,
      if mode = Mode.AUTO ∧ strContains plainText "\n" = false ∧
          strStartsWith plainText "<p>" = false ∧
          strStartsWith (env.markdownConverter plainText) "<p>" = true then
        Mode.INLINE
      else mode)
  else (HTML, mode)

/-- The block branch of the handler (source lines 311-400): shortcode
split, the AUTO inline-content early return, the per-piece conversion, and
the final single-inlineable-block collapse back to an inline string.
`none` is the propagated TypeError of the inline filter chain; the block
conversion itself is total. -/
def blockPath (env : Env) (HTML plainText : String) (mode : Mode) (tagName : Option String)
    (preserveWhiteSpace : Bool) : Option HandlerResult :=
  if mode = Mode.AUTO ∧ decide ((env.shortcodeConverter HTML).length > 1) = false ∧
      env.isInlineContent HTML tagName = true then
    (filterInlineHTMLStr env HTML preserveWhiteSpace).map HandlerResult.str
  else if mode = Mode.AUTO ∧ (computeBlocks env HTML).length = 1 ∧
      env.hasBlockSupport ((computeBlocks env HTML).headD (Block.mk "" [] [])).name
        "__unstablePasteTextInline" false = true then
    if strTrim plainText ≠ "" ∧ strContains (strTrim plainText) "\n" = false then
      some (HandlerResult.str
        (env.removeInvalidHTMLPhrasing
          (env.getBlockContent ((computeBlocks env HTML).headD (Block.mk "" [] [])))))
    else some (HandlerResult.blocks (computeBlocks env HTML))
  else some (HandlerResult.blocks (computeBlocks env HTML))

/-- The part of the handler after the delimiter short-circuit: Unicode
normalization (source line 283), markdown resolution, then either the
inline filter chain or the block branch. -/
def resolvedPair (env : Env) (opts : PasteOptions) : String × Mode :=
  resolveMarkdown env (opts.plainText.getD "") (env.normalize (strippedHTML opts)) opts.mode

def pasteAfterDelim (env : Env) (opts : PasteOptions) : Option HandlerResult :=
  if (resolvedPair env opts).2 = Mode.INLINE then
    (filterInlineHTMLStr env (resolvedPair env opts).1 opts.preserveWhiteSpace).map
      HandlerResult.str
  else
    blockPath env (resolvedPair env opts).1 (opts.plainText.getD "") (resolvedPair env opts).2
      opts.tagName opts.preserveWhiteSpace

/-- Embedding of `pasteHandler` (source lines 246-401): boilerplate
stripping, the serialized-block-delimiter short-circuit to the grammar
parser, and the rest of the pipeline.  The result is `some` of a block
list or an inline string when the handler returns, and `none` when it
raises (the TypeError of the default-style parser in the inline chain is
the only raising path of the embedded code). -/
def pasteHandler (env : Env) (opts : PasteOptions) : Option HandlerResult :=
  if opts.mode ≠ Mode.INLINE ∧ strContains (delimiterContent opts) wpDelim = true then
    some (HandlerResult.blocks (env.parseWithGrammar (delimiterContent opts)))
  else
    pasteAfterDelim env opts

/-! ### A concrete demonstration environment

Instantiates the external collaborators with small computable functions for
the witness theorems: the markdown converter wraps a line in a paragraph
(the specification's "Markdown conversion produces a single paragraph"),
the parser recognises the two markup strings the witnesses use, and the
sanitizer/filter stages are identities. -/

def demoParse (s : String) : List HNode :=
  if s = "<p>hello world</p>" then [HNode.element "p" "" [] [HNode.text "hello world"]]
  else if s = "<foo>bar</foo>" then [HNode.element "foo" "" [] [HNode.text "bar"]]
  else []

def demoEnv : Env where
  parseWithGrammar := fun s => [Block.mk "core/paragraph" [("content", s)] []]
  normalize := fun s => s
  isPlain := fun _ => true
  markdownConverter := fun s => "<p>" ++ s ++ "</p>"
  parse := demoParse
  shortcodeConverter := fun s => [Piece.html s]
  isInlineContent := fun _ _ => false
  rawTransforms := []
  deepFilterBlock := fun s => s
  removeInvalidHTMLSchema := fun s => s
  normaliseBlocks := fun s => s
  deepFilterCleanup := fun s => s
  getBlockAttributes := fun _ s => [("content", s)]
  hasBlockSupport := fun _ _ _ => true
  getBlockContent := fun b => ((b.attributes.headD ("", "")).2)
  removeInvalidHTMLPhrasing := fun s => s

example :
    pasteHandler demoEnv (PasteOptions.mk (some "") (some "hello world") Mode.AUTO none false)
      = some (HandlerResult.str "hello world") := rfl

/-- An environment whose parser yields, for every markup string, an element
whose `cssText` contains a quoted semicolon — the browser produces exactly
this for a pasted `<span style=\x27font-family:"a;b"\x27>x</span>`; the
colon-less segment it induces makes the default-style parser throw. -/
def crashStyle : String := "font-family: \"a;b\""

def crashNode : HNode := HNode.element "span" crashStyle [] [HNode.text "x"]

def crashEnv : Env := { demoEnv with parse := fun _ => [crashNode] }

example : removeDefaultStylesFromAllElements [crashNode] = none := rfl

/-! ### The hierarchical term-tree filter
(`getFilterMatcher`, hierarchical-term-selector source lines 99-132) -/

/-- A taxonomy term: identifier, name, and child terms (the fields the
filter reads; the shallow clone of the source copies all fields, which the
preservation theorem states for these). -/
inductive TermT where
  | mk (termId : Nat) (name : String) (children : List TermT)

def TermT.termId : TermT → Nat
  | .mk i _ _ => i

def TermT.name : TermT → String
  | .mk _ n _ => n

def TermT.children : TermT → List TermT
  | .mk _ _ cs => cs

/-- Model of `String.prototype.toLowerCase`. -/
def strLower (s : String) : String := String.mk (s.data.map Char.toLower)

mutual
/-- Embedding of `matchTermsForFilter` (the closure returned by
`getFilterMatcher`): an empty filter returns the original term; otherwise
the children are recursively filtered (`matchChildren` fuses the source's
`.map(matchTermsForFilter).filter((child) => child)`), and the term is kept
when its lowercased name contains the lowercased filter or some child
survived.  `Option` stands for the source's `Object | false` return. -/
def matchTermsForFilter (filterValue : String) : TermT → Option TermT
  | .mk i n cs =>
    if filterValue = "" then some (.mk i n cs)
    else
      let children' := if cs.length > 0 then matchChildren filterValue cs else cs
      if strContains (strLower n) (strLower filterValue) = true ∨ children'.length > 0 then
        some (.mk i n children')
      else none

def matchChildren (filterValue : String) : List TermT → List TermT
  | [] => []
  | c :: rest =>
    match matchTermsForFilter filterValue c with
    | some c' => c' :: matchChildren filterValue rest
    | none => matchChildren filterValue rest
end

/-- Embedding of `getFilterMatcher` (source lines 99-132). -/
def getFilterMatcher (filterValue : String) : TermT → Option TermT :=
  matchTermsForFilter filterValue

example :
    (getFilterMatcher "cat" (TermT.mk 1 "Animal" [TermT.mk 2 "Cat" [], TermT.mk 3 "Dog" []])).isSome
      = true := rfl
example :
    getFilterMatcher "fish" (TermT.mk 1 "Animal" [TermT.mk 2 "Cat" []]) = none := rfl

/-! ### Helper lemmas -/

theorem resolveMarkdown_snd_of_ne_auto (env : Env) (plainText HTML : String) (mode : Mode)
    (hm : mode ≠ Mode.AUTO) : (resolveMarkdown env plainText HTML mode).2 = mode := by
  unfold resolveMarkdown
  split_ifs with h1 h2
  · exact absurd h2.1 hm
  · rfl
  · rfl

theorem resolvedPair_snd_of_ne_auto (env : Env) (opts : PasteOptions)
    (hm : opts.mode ≠ Mode.AUTO) : (resolvedPair env opts).2 = opts.mode :=
  resolveMarkdown_snd_of_ne_auto env _ _ _ hm

theorem blockPath_of_ne_auto (env : Env) (HTML plainText : String) (mode : Mode)
    (tagName : Option String) (pws : Bool) (hm : mode ≠ Mode.AUTO) :
    blockPath env HTML plainText mode tagName pws
      = some (HandlerResult.blocks (computeBlocks env HTML)) := by
  unfold blockPath
  split_ifs with h1 h2 h3
  · exact absurd h1.1 hm
  · exact absurd h2.1 hm
  · exact absurd h2.1 hm
  · rfl

theorem filterInlineHTMLStr_none_iff (env : Env) (s : String) (pws : Bool) :
    filterInlineHTMLStr env s pws = none
      ↔ removeDefaultStylesFromAllElements (env.parse s) = none := by
  unfold filterInlineHTMLStr filterInlineHTMLNodes
  cases h : removeDefaultStylesFromAllElements (env.parse s) <;> simp [h]

/-! ### The claims -/

/-- Claim C1: for every input where the mode is not INLINE and the
(boilerplate-stripped) markup — or, when the markup is empty, the plain
text — contains the serialized-block delimiter token, `pasteHandler`
returns exactly the grammar-level parser's result on that content, with no
filters applied to it. -/
theorem c1_block_delimiter_short_circuit (env : Env) (opts : PasteOptions)
    (hmode : opts.mode ≠ Mode.INLINE)
    (hdelim : strContains (delimiterContent opts) wpDelim = true) :
    pasteHandler env opts
      = some (HandlerResult.blocks (env.parseWithGrammar (delimiterContent opts))) := by
  unfold pasteHandler
  rw [if_pos ⟨hmode, hdelim⟩]

theorem c1_witness :
    pasteHandler demoEnv
        (PasteOptions.mk (some "<!-- wp:paragraph --><p>Hi</p><!-- /wp:paragraph -->") none
          Mode.AUTO none false)
      = some (HandlerResult.blocks
          [Block.mk "core/paragraph"
            [("content", "<!-- wp:paragraph --><p>Hi</p><!-- /wp:paragraph -->")] []]) := by
  exact c1_block_delimiter_short_circuit demoEnv
    (PasteOptions.mk (some "<!-- wp:paragraph --><p>Hi</p><!-- /wp:paragraph -->") none
      Mode.AUTO none false)
    (by decide) (by decide)

/-- Claim C2 (counterexample): an INLINE input whose parsed markup carries
a style with a quoted semicolon.  The default-style parser of the inline
filter chain throws a TypeError (the colon-less segment makes
`values.split` fail, source lines 75-80), so the program raises instead of
returning a string — the claim's "the result is a string" is false at this
input. -/
theorem c2_counterexample :
    pasteHandler crashEnv
        (PasteOptions.mk (some "<span>x</span>") none Mode.INLINE none false) = none
    ∧ getStylesEntries crashStyle = none :=
  ⟨rfl, rfl⟩

/-- Claim C2 (amended): for every INLINE input on which the handler
returns at all (the inline filter chain's default-style parser can throw a
TypeError on style text with a quoted semicolon), the result is a string
and never a sequence of blocks; for every BLOCKS input the handler always
returns, and the result is a sequence of blocks (possibly empty) and never
a string. -/
theorem c2_amended_mode_determines_result_type (env : Env) (opts : PasteOptions) :
    (opts.mode = Mode.INLINE →
      ∀ r, pasteHandler env opts = some r → r.isStr = true) ∧
    (opts.mode = Mode.BLOCKS →
      ∃ bs, pasteHandler env opts = some (HandlerResult.blocks bs)) := by
  constructor
  · intro h r hr
    unfold pasteHandler at hr
    rw [if_neg (by simp [h])] at hr
    unfold pasteAfterDelim at hr
    rw [resolvedPair_snd_of_ne_auto env opts (by simp [h])] at hr
    rw [h, if_pos rfl] at hr
    cases hopt : filterInlineHTMLStr env (resolvedPair env opts).1 opts.preserveWhiteSpace with
    | none => rw [hopt] at hr; simp at hr
    | some s =>
      rw [hopt] at hr
      simp at hr
      rw [← hr]
      rfl
  · intro h
    unfold pasteHandler
    by_cases hd : strContains (delimiterContent opts) wpDelim = true
    · rw [if_pos ⟨by simp [h], hd⟩]
      exact ⟨_, rfl⟩
    · rw [if_neg (by simp [hd])]
      unfold pasteAfterDelim
      rw [resolvedPair_snd_of_ne_auto env opts (by simp [h])]
      rw [h, if_neg (by simp)]
      rw [blockPath_of_ne_auto env _ _ _ _ _ (by simp [h])]
      exact ⟨_, rfl⟩

theorem c2_witness :
    ((pasteHandler demoEnv
        (PasteOptions.mk (some "<b>x</b>") none Mode.INLINE none false)).getD
          (HandlerResult.blocks [])).isStr = true
    ∧ ∃ bs, pasteHandler demoEnv (PasteOptions.mk (some "<b>x</b>") none Mode.BLOCKS none false)
        = some (HandlerResult.blocks bs) := by
  constructor
  · exact (c2_amended_mode_determines_result_type demoEnv
        (PasteOptions.mk (some "<b>x</b>") none Mode.INLINE none false)).1 rfl
      ((pasteHandler demoEnv
        (PasteOptions.mk (some "<b>x</b>") none Mode.INLINE none false)).getD
          (HandlerResult.blocks [])) rfl
  · exact (c2_amended_mode_determines_result_type demoEnv
        (PasteOptions.mk (some "<b>x</b>") none Mode.BLOCKS none false)).2 rfl

/-- Claim C5 (counterexample): the handler *can* raise: on an INLINE paste
whose parsed markup carries a style with a quoted semicolon, the colon-less
style segment makes the in-source `getStylesEntries` throw a TypeError
(`values.split` on the defaulted empty array, source lines 75-80), so
"never raises an error" is false of the program. -/
theorem c5_counterexample :
    pasteHandler crashEnv (PasteOptions.mk (some "y") (some "y") Mode.INLINE none true)
      = none := rfl

/-- Claim C5 (amended): missing plain-text and markup fields are treated
exactly like empty strings, unrecognized top-level markup is never dropped
(every top-level element yields a block, unmatched ones via the opaque
fallback), and the only raising path of the embedded code is the
default-style parser of the inline filter chain: every failing run fails
inside `removeDefaultStylesFromAllElements` on some parsed markup. -/
theorem c5_amended_defaults_totality_error_localization (env : Env) (mode : Mode)
    (tagName : Option String) (pws : Bool) :
    pasteHandler env (PasteOptions.mk none none mode tagName pws)
      = pasteHandler env (PasteOptions.mk (some "") (some "") mode tagName pws)
    ∧ (∀ (html : String) (rawTransforms : List RawTransform),
        (htmlToBlocks env html rawTransforms).length
          = ((env.parse html).filter HNode.isElement).length)
    ∧ (∀ opts : PasteOptions, pasteHandler env opts = none →
        ∃ s, removeDefaultStylesFromAllElements (env.parse s) = none) := by
  refine ⟨rfl, ?_, ?_⟩
  · intro html rawTransforms
    unfold htmlToBlocks
    exact List.length_map _ _
  · intro opts hnone
    unfold pasteHandler at hnone
    split_ifs at hnone with hdelim
    unfold pasteAfterDelim at hnone
    split_ifs at hnone with hinl
    · rcases Option.map_eq_none'.mp hnone with hstr
      exact ⟨(resolvedPair env opts).1, (filterInlineHTMLStr_none_iff env _ _).mp hstr⟩
    · unfold blockPath at hnone
      split_ifs at hnone with h1 h2 h3
      rcases Option.map_eq_none'.mp hnone with hstr
      exact ⟨(resolvedPair env opts).1, (filterInlineHTMLStr_none_iff env _ _).mp hstr⟩

theorem c5_witness :
    ∃ s, removeDefaultStylesFromAllElements (crashEnv.parse s) = none :=
  (c5_amended_defaults_totality_error_localization crashEnv Mode.INLINE none true).2.2
    (PasteOptions.mk (some "y") none Mode.INLINE none true) rfl

/-- Claim C4: every top-level markup node that matches no transform rule
appears in the output of `htmlToBlocks` as an opaque `core/html` block
whose sole stored attribute is that node's own serialized markup (the
external attribute extractor's behaviour on `core/html`, hypothesis
`hattr`, is the specification's "sole attribute is the node's own
serialized markup"), so no input content is silently dropped. -/
theorem c4_unmatched_node_opaque_fallback (env : Env) (html : String)
    (rawTransforms : List RawTransform) (node : HNode)
    (hmem : node ∈ (env.parse html).filter HNode.isElement)
    (hno : ∀ t ∈ rawTransforms, t.isMatch node = false)
    (hattr : env.getBlockAttributes "core/html" (serializeNode node)
        = [("content", serializeNode node)]) :
    Block.mk "core/html" [("content", serializeNode node)] []
      ∈ htmlToBlocks env html rawTransforms := by
  unfold htmlToBlocks
  apply List.mem_map.mpr
  refine ⟨node, hmem, ?_⟩
  have hfind : rawTransforms.find? (fun t => t.isMatch node) = none := by
    rw [List.find?_eq_none]
    intro t ht
    simp [hno t ht]
  rw [hfind, hattr]

theorem c4_witness :
    Block.mk "core/html" [("content", "<foo>bar</foo>")] []
      ∈ htmlToBlocks demoEnv "<foo>bar</foo>" [] := by
  have h := c4_unmatched_node_opaque_fallback demoEnv "<foo>bar</foo>" []
    (HNode.element "foo" "" [] [HNode.text "bar"])
    (by show HNode.element "foo" "" [] [HNode.text "bar"]
          ∈ [HNode.element "foo" "" [] [HNode.text "bar"]]
        exact List.mem_singleton_self _)
    (by intro t ht; exact absurd ht (List.not_mem_nil t))
    rfl
  exact h

/-- Claim C3: when plain text is present, the markup is empty or plain,
mode is AUTO, the plain text has no newline and does not begin with a
paragraph tag, and the markdown-converted markup does begin with one, the
mode is forced to INLINE and the handler returns the outcome of the inline
filter chain on the converted markup; in particular the input
`(markup "", plain text "hello world", mode AUTO)` yields the string
`"hello world"` whenever the external markdown converter produces the
single paragraph the specification describes and the browser parser parses
it back. -/
theorem c3_auto_single_line_inline :
    (∀ (env : Env) (opts : PasteOptions),
      opts.mode = Mode.AUTO →
      strContains (delimiterContent opts) wpDelim = false →
      opts.plainText.getD "" ≠ "" →
      (env.normalize (strippedHTML opts) = "" ∨
        env.isPlain (env.normalize (strippedHTML opts)) = true) →
      strContains (opts.plainText.getD "") "\n" = false →
      strStartsWith (opts.plainText.getD "") "<p>" = false →
      strStartsWith (env.markdownConverter (opts.plainText.getD "")) "<p>" = true →
      pasteHandler env opts
        = (filterInlineHTMLStr env (env.markdownConverter (opts.plainText.getD ""))
            opts.preserveWhiteSpace).map HandlerResult.str) ∧
    (∀ env : Env,
      env.markdownConverter "hello world" = "<p>hello world</p>" →
      env.normalize "" = "" →
      env.parse "<p>hello world</p>" = [HNode.element "p" "" [] [HNode.text "hello world"]] →
      pasteHandler env (PasteOptions.mk (some "") (some "hello world") Mode.AUTO none false)
        = some (HandlerResult.str "hello world")) := by
  have general : ∀ (env : Env) (opts : PasteOptions),
      opts.mode = Mode.AUTO →
      strContains (delimiterContent opts) wpDelim = false →
      opts.plainText.getD "" ≠ "" →
      (env.normalize (strippedHTML opts) = "" ∨
        env.isPlain (env.normalize (strippedHTML opts)) = true) →
      strContains (opts.plainText.getD "") "\n" = false →
      strStartsWith (opts.plainText.getD "") "<p>" = false →
      strStartsWith (env.markdownConverter (opts.plainText.getD "")) "<p>" = true →
      pasteHandler env opts
        = (filterInlineHTMLStr env (env.markdownConverter (opts.plainText.getD ""))
            opts.preserveWhiteSpace).map HandlerResult.str := by
    intro env opts hm hdelim hpt hplain hnl hsw hconv
    have hpair : resolvedPair env opts
        = (env.markdownConverter (opts.plainText.getD ""), Mode.INLINE) := by
      unfold resolvedPair resolveMarkdown
      rw [if_pos ⟨hpt, hplain⟩, hm]
      rw [if_pos ⟨rfl, hnl, hsw, hconv⟩]
    unfold pasteHandler
    rw [if_neg (by simp [hdelim])]
    unfold pasteAfterDelim
    rw [hpair]
    rfl
  refine ⟨general, ?_⟩
  intro env h1 h2 h3
  have h := general env (PasteOptions.mk (some "") (some "hello world") Mode.AUTO none false)
    rfl (by decide) (by decide)
    (Or.inl (by show env.normalize "" = ""; exact h2))
    (by decide) (by decide)
    (by show strStartsWith (env.markdownConverter "hello world") "<p>" = true
        rw [h1]; decide)
  rw [h]
  show (filterInlineHTMLStr env (env.markdownConverter "hello world") false).map
      HandlerResult.str = some (HandlerResult.str "hello world")
  rw [h1]
  unfold filterInlineHTMLStr
  rw [h3]
  rfl

theorem c3_witness :
    pasteHandler demoEnv (PasteOptions.mk (some "") (some "hello world") Mode.AUTO none false)
      = some (HandlerResult.str "hello world") :=
  c3_auto_single_line_inline.2 demoEnv rfl rfl rfl

/-- Claim C8: in the block branch with mode AUTO, when the early
inline-content return is not taken, the per-piece conversion produced
exactly one block, that block's type opts in to paste-as-inline behaviour,
and the original plain text is non-empty with no line breaks, the handler
discards the block result and returns the block's rendered inline markup,
filtered by the phrasing-content schema, as a string. -/
theorem c8_single_inlineable_block_collapses (env : Env) (HTML plainText : String)
    (tagName : Option String) (pws : Bool) (b : Block)
    (hearly : ¬((env.shortcodeConverter HTML).length ≤ 1 ∧
        env.isInlineContent HTML tagName = true))
    (hb : computeBlocks env HTML = [b])
    (hsupp : env.hasBlockSupport b.name "__unstablePasteTextInline" false = true)
    (htrim : strTrim plainText ≠ "")
    (hnl : strContains (strTrim plainText) "\n" = false) :
    blockPath env HTML plainText Mode.AUTO tagName pws
      = some (HandlerResult.str (env.removeInvalidHTMLPhrasing (env.getBlockContent b))) := by
  unfold blockPath
  have hne : ¬(Mode.AUTO = Mode.AUTO ∧
      decide ((env.shortcodeConverter HTML).length > 1) = false ∧
      env.isInlineContent HTML tagName = true) := by
    rintro ⟨-, hs, hi⟩
    refine hearly ⟨?_, hi⟩
    have := of_decide_eq_false hs
    omega
  rw [if_neg hne, hb]
  rw [if_pos ⟨rfl, rfl, hsupp⟩]
  rw [if_pos ⟨htrim, hnl⟩]
  rfl

theorem c8_witness :
    blockPath demoEnv "<foo>bar</foo>" "bar" Mode.AUTO none false
      = some (HandlerResult.str "<foo>bar</foo>") := by
  have h := c8_single_inlineable_block_collapses demoEnv "<foo>bar</foo>" "bar" none false
    (Block.mk "core/html" [("content", "<foo>bar</foo>")] [])
    (by decide) rfl rfl (by decide) (by decide)
  exact h

/-! ### The phrasing-only contract of the inline filter chain (claim C7)

The source's doc comment on `filterInlineHTML` promises HTML only
containing phrasing content, but the `removeInvalidHTML` call with the
phrasing-content schema is commented out (source lines 160-162), so
block-level structure that carries attributes survives the chain. -/

mutual
def containsTagN (tag : String) : HNode → Bool
  | .element t _ _ cs => t = tag || containsTagL tag cs
  | _ => false

def containsTagL (tag : String) : List HNode → Bool
  | [] => false
  | n :: rest => containsTagN tag n || containsTagL tag rest
end

/-- Claim C7 (evaluation of the code at the failing input): the inline
filter chain returns the markup `<div class="x">a</div>` unchanged — a
block-level `div` remains in the output, contradicting the phrasing-only
contract, because the phrasing-schema sanitization is commented out in the
source. -/
theorem c7_inline_chain_keeps_block_markup :
    filterInlineHTMLNodes [HNode.element "div" "" [("class", "x")] [HNode.text "a"]] false
      = some [HNode.element "div" "" [("class", "x")] [HNode.text "a"]]
    ∧ containsTagL "div"
        ((filterInlineHTMLNodes [HNode.element "div" "" [("class", "x")] [HNode.text "a"]]
            false).getD [])
      = true :=
  ⟨rfl, rfl⟩

/-! ### Bare-element unwrapping (claim C9) -/

mutual
/-- No element anywhere in the tree is "bare" (empty style, no attributes
other than style).  If the final unwrap step really unwrapped every bare
element, its output would satisfy this predicate. -/
def noBareN : HNode → Bool
  | .element _ st a cs => !(st = "" && a.isEmpty) && noBareL cs
  | _ => true

def noBareL : List HNode → Bool
  | [] => true
  | n :: rest => noBareN n && noBareL rest
end

/-- Claim C9 (counterexample): two adjacent attribute-less formatting
elements.  The live `children` collection loses one entry when the first
element is unwrapped, the `for..of` index then skips the element that
slides into its slot, and the second bare element (`<strong>`) survives
unvisited — the claim's "every element ... is unwrapped" is false here. -/
theorem c9_counterexample :
    unwrapSpansWithNoStylesAndAtrrs
        [HNode.element "em" "" [] [HNode.text "a"], HNode.element "strong" "" [] [HNode.text "b"]]
      = [HNode.text "a", HNode.element "strong" "" [] [HNode.text "b"]]
    ∧ noBareL (unwrapSpansWithNoStylesAndAtrrs
        [HNode.element "em" "" [] [HNode.text "a"],
         HNode.element "strong" "" [] [HNode.text "b"]]) = false :=
  ⟨rfl, rfl⟩

/-- Claim C9 (amended): every element the traversal visits with empty
style and no non-style attributes is unwrapped, of any tag name — in
particular a sole attribute-less formatting element such as `<strong>` or
`<em>` is removed while its text content is kept; but unwrapping mutates
the live child collection mid-iteration, so the element occupying the next
collection slot is skipped and may survive. -/
theorem c9_amended_sole_bare_element_unwrapped (tag : String) (s : String) :
    unwrapSpansWithNoStylesAndAtrrs [HNode.element tag "" [] [HNode.text s]] = [HNode.text s] :=
  rfl

/-! ### Claim C10: the term-tree filter -/

theorem matchChildren_guard_eq (f : String) (cs : List TermT) :
    (if cs.length > 0 then matchChildren f cs else cs) = matchChildren f cs := by
  cases cs with
  | nil => simp [matchChildren]
  | cons c rest => simp

theorem matchChildren_pos_iff (f : String) (l : List TermT) :
    (matchChildren f l).length > 0 ↔ ∃ c ∈ l, (matchTermsForFilter f c).isSome = true := by
  induction l with
  | nil => simp [matchChildren]
  | cons c rest ih =>
    cases h : matchTermsForFilter f c with
    | some c' =>
      simp only [matchChildren, h]
      exact iff_of_true (by simp) ⟨c, List.mem_cons_self c rest, by simp [h]⟩
    | none =>
      simp only [matchChildren, h]
      rw [ih]
      constructor
      · rintro ⟨x, hx, hs⟩
        exact ⟨x, List.mem_cons_of_mem c hx, hs⟩
      · rintro ⟨x, hx, hs⟩
        rcases List.mem_cons.mp hx with rfl | hx'
        · rw [h] at hs; simp at hs
        · exact ⟨x, hx', hs⟩

/-- Claim C10: for every term tree and non-empty filter string, the matcher
returned by `getFilterMatcher` keeps a term if and only if the term's name
contains the filter case-insensitively or at least one of its recursively
filtered children is kept; a kept term preserves the original's fields and
carries the new, filtered children list (the pure counterpart of the
source's shallow clone with a rebuilt children array — the original term
value is never modified). -/
theorem c10_filter_matcher_keeps_iff (f : String) (t : TermT) (hf : f ≠ "") :
    ((getFilterMatcher f t).isSome = true ↔
      (strContains (strLower t.name) (strLower f) = true ∨
        ∃ c ∈ t.children, (getFilterMatcher f c).isSome = true))
    ∧ ∀ t', getFilterMatcher f t = some t' →
        t'.termId = t.termId ∧ t'.name = t.name ∧ t'.children = matchChildren f t.children := by
  cases t with
  | mk i n cs =>
    simp only [TermT.name, TermT.children, TermT.termId, getFilterMatcher]
    rw [matchTermsForFilter]
    rw [if_neg hf, matchChildren_guard_eq]
    by_cases hk : (strContains (strLower n) (strLower f) = true ∨ (matchChildren f cs).length > 0)
    · rw [if_pos hk]
      constructor
      · refine iff_of_true rfl ?_
        rcases hk with hname | hpos
        · exact Or.inl hname
        · exact Or.inr ((matchChildren_pos_iff f cs).mp hpos)
      · intro t' ht'
        injection ht' with h
        subst h
        exact ⟨rfl, rfl, rfl⟩
    · rw [if_neg hk]
      constructor
      · refine iff_of_false (by simp) ?_
        rintro (hname | ⟨c, hc, hs⟩)
        · exact hk (Or.inl hname)
        · exact hk (Or.inr ((matchChildren_pos_iff f cs).mpr ⟨c, hc, hs⟩))
      · intro t' ht'
        simp at ht'

theorem c10_witness :
    (getFilterMatcher "at" (TermT.mk 1 "Animal" [TermT.mk 2 "Cat" []])).isSome = true :=
  (c10_filter_matcher_keeps_iff "at" (TermT.mk 1 "Animal" [TermT.mk 2 "Cat" []])
      (by decide)).1.mpr
    (Or.inr ⟨TermT.mk 2 "Cat" [], List.mem_singleton_self _, rfl⟩)
